import Mathlib

/-!
Verification of the `aiida-pseudo` repository's language-agnostic core: the
UPF valence parser and the pseudopotential family (collection) invariants.

The repository ships only its test suite and CLI stub in this source tree;
the data and family implementation modules are absent.  Following the spec
(sections 4.1 and 4.2), the missing operations are modelled here as explicit
Lean functions; each such definition carries a doc comment starting
"Modelled from the spec:".
-/

/-- The double-quote character, written via its code point. -/
def quoteD : Char := Char.ofNat 34

/-- The single-quote character, written via its code point. -/
def quoteS : Char := Char.ofNat 39

/-- Interpret a list of decimal digit characters as a natural number. -/
def digitsToNat (l : List Char) : Nat :=
  l.foldl (fun a c => a * 10 + (c.toNat - 48)) 0

/-- Split a character list into its maximal leading run of decimal digits and the rest. -/
def spanDigits : List Char → List Char × List Char
  | [] => ([], [])
  | c :: cs =>
    if c.isDigit then
      let (d, r) := spanDigits cs
      (c :: d, r)
    else ([], c :: cs)

/-- Ten raised to an integer power, as a rational number. -/
def pow10 : Int → ℚ
  | .ofNat n => (10 : ℚ) ^ n
  | .negSucc n => 1 / (10 : ℚ) ^ (n + 1)

/-- Modelled from the spec: parse an optional exponent suffix of a numeric
literal (`e` or `E`, an optional sign, digits).  `none` marks a malformed
remainder; an absent suffix yields exponent `0`. -/
def parseExp : List Char → Option Int
  | [] => some 0
  | c :: cs =>
    if c = 'e' ∨ c = 'E' then
      match cs with
      | '+' :: ds => if ds ≠ [] ∧ ds.all Char.isDigit then some (digitsToNat ds) else none
      | '-' :: ds => if ds ≠ [] ∧ ds.all Char.isDigit then some (-(digitsToNat ds : Int)) else none
      | ds => if ds ≠ [] ∧ ds.all Char.isDigit then some (digitsToNat ds) else none
    else none

/-- Modelled from the spec: parse a standard numeric literal (integer,
decimal, trailing decimal point, exponential notation) into an exact
scaled-decimal pair `(mantissa, exponent)` denoting `mantissa * 10 ^
exponent`; `none` if the characters are not such a literal. -/
def parseNumLit (l : List Char) : Option (Nat × Int) :=
  let (ip, r1) := spanDigits l
  match r1 with
  | '.' :: r2 =>
    let (fp, r3) := spanDigits r2
    if ip = [] ∧ fp = [] then none
    else
      match parseExp r3 with
      | some e => some (digitsToNat ip * 10 ^ fp.length + digitsToNat fp, e - fp.length)
      | none => none
  | _ =>
    if ip = [] then none
    else
      match parseExp r1 with
      | some e => some (digitsToNat ip, e)
      | none => none

/-- The rational value denoted by a scaled-decimal pair. -/
def sciVal (p : Nat × Int) : ℚ := p.1 * pow10 p.2

/-- Drop whitespace from both ends of a character list. -/
def trimWs (l : List Char) : List Char :=
  ((l.dropWhile Char.isWhitespace).reverse.dropWhile Char.isWhitespace).reverse

/-- Match a literal character sequence as a prefix, returning the remainder. -/
def matchLit : List Char → List Char → Option (List Char)
  | [], rest => some rest
  | _ :: _, [] => none
  | p :: ps, c :: cs => if p = c then matchLit ps cs else none

/-- Take characters up to the first occurrence of `q`, returning them and
the remainder after `q`; `none` if `q` never occurs. -/
def takeUntil (q : Char) : List Char → Option (List Char × List Char)
  | [] => none
  | c :: cs =>
    if c = q then some ([], cs)
    else
      match takeUntil q cs with
      | some (a, b) => some (c :: a, b)
      | none => none

/-- Modelled from the spec (4.1, pattern 1): at the current position, match
an attribute-style token `z_valence=` followed by a double- or single-quoted
numeric literal, tolerating whitespace inside the quotes; return the parsed
value of the trimmed quoted text. -/
def matchAttrAt (l : List Char) : Option (Nat × Int) :=
  match matchLit ("z_valence=".toList) l with
  | none => none
  | some rest =>
    match rest with
    | [] => none
    | q :: rs =>
      if q = quoteD ∨ q = quoteS then
        match takeUntil q rs with
        | some (inner, _) => parseNumLit (trimWs inner)
        | none => none
      else none

/-- Search the whole text for the first position where the attribute-style
valence pattern matches. -/
def searchAttr : List Char → Option (Nat × Int)
  | [] => none
  | c :: cs =>
    match matchAttrAt (c :: cs) with
    | some v => some v
    | none => searchAttr cs

/-- Modelled from the spec (4.1, pattern 2): at the current position, match
a standalone numeric literal (digits and dots), at least one whitespace
character, and the literal phrase "Z valence" (case-sensitive). -/
def matchLegacyAt (l : List Char) : Option (Nat × Int) :=
  let tok := l.takeWhile (fun c => c.isDigit || c = '.')
  let rest := l.dropWhile (fun c => c.isDigit || c = '.')
  if tok = [] then none
  else
    match rest with
    | [] => none
    | c :: _ =>
      if c.isWhitespace then
        match matchLit ("Z valence".toList) (rest.dropWhile Char.isWhitespace) with
        | some _ => parseNumLit tok
        | none => none
      else none

/-- Search the whole text for the first position where the legacy free-text
valence pattern matches. -/
def searchLegacy : List Char → Option (Nat × Int)
  | [] => none
  | c :: cs =>
    match matchLegacyAt (c :: cs) with
    | some v => some v
    | none => searchLegacy cs

/-- Modelled from the spec: the pattern-priority search of `parse_z_valence`.
The two historical patterns are tried in priority order (attribute-style
first, legacy free-text second); the first match anywhere in the text wins. -/
def searchValence (content : String) : Option (Nat × Int) :=
  match searchAttr content.toList with
  | some v => some v
  | none => searchLegacy content.toList

/-- Modelled from the spec: `parse_z_valence` from the absent module
`aiida_pseudo.data.pseudo.upf`.  The matched numeric substring (trimmed) is
parsed as a number and returned; `none` signals the ParsingError case. -/
def parse_z_valence (content : String) : Option ℚ :=
  (searchValence content).map sciVal

/-- The nine literal valence encodings exercised by `test_parse_z_valence`. -/
def zValenceTestStrings : List String :=
  [ "z_valence=" ++ String.mk [quoteD] ++ "1" ++ String.mk [quoteD]
  , "z_valence=" ++ String.mk [quoteD] ++ "1.0" ++ String.mk [quoteD]
  , "z_valence=" ++ String.mk [quoteD] ++ "1.000" ++ String.mk [quoteD]
  , "z_valence=" ++ String.mk [quoteD] ++ "1.00E+01" ++ String.mk [quoteD]
  , "z_valence=" ++ String.mk [quoteD] ++ "1500." ++ String.mk [quoteD]
  , "z_valence=" ++ String.mk [quoteS] ++ "1.0" ++ String.mk [quoteS]
  , "z_valence=" ++ String.mk [quoteD] ++ "    1" ++ String.mk [quoteD]
  , "z_valence=" ++ String.mk [quoteD] ++ "1    " ++ String.mk [quoteD]
  , "1.0     Z valence" ]

/-!
## The family / collection model

The modules `aiida_pseudo.data.pseudo` and `aiida_pseudo.groups.family` are
absent from this source tree; the entities below are modelled from the spec
(sections 3 and 4.2), with error messages taken from the test suite where
the tests pin them down.
-/

/-- Modelled from the spec: the concrete runtime type tag of a
pseudopotential record, used for the deliberate exact-type (not subtype)
membership check.  `UpfData` is a strict subclass of `PseudoPotentialData`;
`int` stands for the non-pseudo type used by `test_pseudo_type_validation`. -/
inductive PseudoType where
  | PseudoPotentialData
  | UpfData
  | int
deriving DecidableEq

/-- Printable name of a type tag, used inside error messages. -/
def PseudoType.typeName : PseudoType → String
  | .PseudoPotentialData => "PseudoPotentialData"
  | .UpfData => "UpfData"
  | .int => "int"

/-- Modelled from the spec: whether a type tag is a subclass of the base
record type `PseudoPotentialData` (subclass includes the class itself). -/
def PseudoType.isSubclassOfPseudoPotentialData : PseudoType → Bool
  | .PseudoPotentialData => true
  | .UpfData => true
  | .int => false

/-- Modelled from the spec: the typed error surface of the core (section 7). -/
inductive FamilyError where
  | modificationNotAllowed (msg : String)
  | valueError (msg : String)
  | typeError (msg : String)
  | runtimeError (msg : String)
  | parsingError (msg : String)
deriving DecidableEq

/-- Modelled from the spec: a pseudopotential record (`PseudoPotentialData`
and subclasses): a concrete type tag, the derived chemical element, and the
stored-lifecycle flag. -/
structure PseudoRecord where
  rtype : PseudoType
  element : String
  stored : Bool
deriving DecidableEq

/-- Modelled from the spec: persisting a record flips it to stored. -/
def PseudoRecord.store (p : PseudoRecord) : PseudoRecord :=
  { p with stored := true }

/-- The fixed periodic-table symbol set, standard capitalization. -/
def elementSymbols : List String :=
  ["H", "He", "Li", "Be", "B", "C", "N", "O", "F", "Ne",
   "Na", "Mg", "Al", "Si", "P", "S", "Cl", "Ar", "K", "Ca",
   "Sc", "Ti", "V", "Cr", "Mn", "Fe", "Co", "Ni", "Cu", "Zn",
   "Ga", "Ge", "As", "Se", "Br", "Kr", "Rb", "Sr", "Y", "Zr",
   "Nb", "Mo", "Tc", "Ru", "Rh", "Pd", "Ag", "Cd", "In", "Sn",
   "Sb", "Te", "I", "Xe", "Cs", "Ba", "La", "Ce", "Pr", "Nd",
   "Pm", "Sm", "Eu", "Gd", "Tb", "Dy", "Ho", "Er", "Tm", "Yb",
   "Lu", "Hf", "Ta", "W", "Re", "Os", "Ir", "Pt", "Au", "Hg",
   "Tl", "Pb", "Bi", "Po", "At", "Rn", "Fr", "Ra", "Ac", "Th",
   "Pa", "U", "Np", "Pu", "Am", "Cm", "Bk", "Cf", "Es", "Fm",
   "Md", "No", "Lr", "Rf", "Db", "Sg", "Bh", "Hs", "Mt", "Ds",
   "Rg", "Cn", "Nh", "Fl", "Mc", "Lv", "Ts", "Og"]

/-- Normalize a candidate symbol to standard capitalization: first letter
uppercase, remainder lowercase. -/
def capitalizeSym (s : String) : String :=
  match s.toList with
  | [] => ""
  | c :: cs => String.mk (c.toUpper :: cs.map Char.toLower)

/-- Modelled from the spec (4.1, element extraction): derive the chemical
element from a filename of the form `<Element>.<extension>`: the part before
the first dot, normalized, validated against the periodic-table set.
`none` signals the ParsingError case. -/
def parseElementFromFilename (filename : String) : Option String :=
  let sym := capitalizeSym (String.mk (filename.toList.takeWhile (fun c => c ≠ '.')))
  if sym ∈ elementSymbols then some sym else none

/-- Modelled from the spec: `set_file` on a record: replacing the file
content re-derives the element from the new content's name while the record
is unstored; on a stored record it fails with ModificationNotAllowed. -/
def PseudoRecord.set_file (p : PseudoRecord) (filename : String) :
    Except FamilyError PseudoRecord :=
  if p.stored then
    .error (.modificationNotAllowed "the node is stored and its file content can no longer be changed")
  else
    match parseElementFromFilename filename with
    | some el => .ok { p with element := el }
    | none =>
      .error (.parsingError ("`" ++ p.rtype.typeName ++
        "` constructor did not define the element for file `" ++ filename ++ "`"))

/-- Modelled from the spec: a pseudopotential family (collection): a label,
the declared member record type, the stored-lifecycle flag, and the
element-to-record mapping as an association list. -/
structure PseudoPotentialFamily where
  label : String
  pseudoType : PseudoType
  stored : Bool
  pseudos : List (String × PseudoRecord)
deriving DecidableEq

/-- The element symbols currently in membership. -/
def PseudoPotentialFamily.elements (fam : PseudoPotentialFamily) : List String :=
  fam.pseudos.map Prod.fst

/-- The element-to-record mapping as a lookup function (`pseudos[element]`). -/
def PseudoPotentialFamily.pseudosMap (fam : PseudoPotentialFamily) (element : String) :
    Option PseudoRecord :=
  (fam.pseudos.find? (fun p => p.1 == element)).map Prod.snd

/-- The collection's element-uniqueness invariant: no two member records
share the same element value. -/
def famInvariant (fam : PseudoPotentialFamily) : Prop :=
  (fam.pseudos.map Prod.fst).Nodup

instance (fam : PseudoPotentialFamily) : Decidable (famInvariant fam) := by
  unfold famInvariant
  infer_instance

/-- Modelled from the spec: the validating constructor of
`PseudoPotentialFamily` (and its subclasses): a declared record type that is
not a subclass of `PseudoPotentialData` is rejected at construction time
with a RuntimeError; otherwise the family starts unstored and empty. -/
def PseudoPotentialFamily.construct (pseudoType : PseudoType) (label : String) :
    Except FamilyError PseudoPotentialFamily :=
  if pseudoType.isSubclassOfPseudoPotentialData then
    .ok { label := label, pseudoType := pseudoType, stored := false, pseudos := [] }
  else
    .error (.runtimeError ("`" ++ pseudoType.typeName ++
      "` is not a subclass of `PseudoPotentialData`."))

/-- Persisting a family flips it to stored. -/
def PseudoPotentialFamily.storeFamily (fam : PseudoPotentialFamily) : PseudoPotentialFamily :=
  { fam with stored := true }

/-- First element of the batch that conflicts: one whose element is already
among `seen` (the current membership, extended with the batch as it is
scanned, so in-batch duplicates are caught too). -/
def firstConflict (seen : List String) : List PseudoRecord → Option String
  | [] => none
  | n :: ns => if n.element ∈ seen then some n.element else firstConflict (n.element :: seen) ns

/-- Modelled from the spec (4.2): `add_nodes` on a list of records.  The
preconditions are checked in order, before any mutation: the family is
stored; every record is stored; every record's concrete type equals the
declared type exactly; no record's element is already present nor duplicated
within the batch.  On success all records are appended to the mapping. -/
def PseudoPotentialFamily.add_nodes (fam : PseudoPotentialFamily)
    (nodes : List PseudoRecord) : Except FamilyError PseudoPotentialFamily :=
  if fam.stored = false then
    .error (.modificationNotAllowed "cannot add nodes to an unstored group")
  else if nodes.any (fun n => !n.stored) then
    .error (.valueError "At least one of the provided nodes is unstored, stopping...")
  else if nodes.any (fun n => !(n.rtype == fam.pseudoType)) then
    .error (.typeError ("only nodes of type `" ++ fam.pseudoType.typeName ++ "` can be added"))
  else
    match firstConflict fam.elements nodes with
    | some el => .error (.valueError ("element `" ++ el ++ "` already present in this family"))
    | none => .ok { fam with pseudos := fam.pseudos ++ nodes.map (fun n => (n.element, n)) }

/-- Modelled from the spec: the single-record / tuple / list input shapes
accepted by `add_nodes`; a single record is wrapped into a one-element
sequence before validation. -/
inductive NodesInput where
  | single (n : PseudoRecord)
  | tuple (ns : List PseudoRecord)
  | list (ns : List PseudoRecord)

/-- Normalization of an input shape to the underlying record sequence. -/
def NodesInput.toList : NodesInput → List PseudoRecord
  | .single n => [n]
  | .tuple ns => ns
  | .list ns => ns

/-- `add_nodes` on any of the accepted input shapes. -/
def PseudoPotentialFamily.add_nodes_input (fam : PseudoPotentialFamily)
    (input : NodesInput) : Except FamilyError PseudoPotentialFamily :=
  fam.add_nodes input.toList

/-- Modelled from the spec: `get_pseudo` returns the member record for the
given element, or fails with a ValueError naming the collection and the
element when it is absent. -/
def PseudoPotentialFamily.get_pseudo (fam : PseudoPotentialFamily) (element : String) :
    Except FamilyError PseudoRecord :=
  match fam.pseudosMap element with
  | some r => .ok r
  | none => .error (.valueError ("family `" ++ fam.label ++
      "` does not contain pseudo for element `" ++ element ++ "`"))

/-- Modelled from the spec: a directory entry — a name and whether the
entry is a regular file. -/
structure DirEntry where
  name : String
  isFile : Bool
deriving DecidableEq

/-- Modelled from the spec: parse every directory entry into a record
(stored as part of the transactional create), propagating the first
ParsingError message; each record's element is derived from the filename. -/
def parsePseudosFromDirectory : List DirEntry → Except String (List PseudoRecord)
  | [] => .ok []
  | e :: es =>
    match parseElementFromFilename e.name with
    | none =>
      .error ("`PseudoPotentialData` constructor did not define the element for file `" ++
        e.name ++ "`")
    | some el =>
      match parsePseudosFromDirectory es with
      | .ok rs => .ok ({ rtype := .PseudoPotentialData, element := el, stored := true } :: rs)
      | .error m => .error m

/-- First element value occurring more than once in the list, if any. -/
def firstDup : List String → Option String
  | [] => none
  | x :: xs => if x ∈ xs then some x else firstDup xs

/-- Modelled from the spec (4.2): `create_from_folder`.  `existingLabels`
stands for the labels already taken in the host storage.  Preconditions in
order: the label is free; every entry is a file; every file parses; at least
one file was parsed; no two files parse to the same element.  On success a
stored family holding all parsed records, keyed by element, is returned; on
failure no collection is created. -/
def create_from_folder (existingLabels : List String) (dirpath : String)
    (entries : List DirEntry) (label : String) :
    Except FamilyError PseudoPotentialFamily :=
  if label ∈ existingLabels then
    .error (.valueError ("the PseudoPotentialFamily `" ++ label ++ "` already exists"))
  else if entries.any (fun e => !e.isFile) then
    .error (.valueError ("dirpath `" ++ dirpath ++
      "` contains at least one entry that is not a file"))
  else
    match parsePseudosFromDirectory entries with
    | .error m => .error (.parsingError m)
    | .ok records =>
      if records.isEmpty then
        .error (.valueError ("no pseudo potentials were parsed from `" ++ dirpath ++ "`"))
      else
        match firstDup (records.map PseudoRecord.element) with
        | some el =>
          .error (.valueError ("directory `" ++ dirpath ++
            "` contains pseudo potentials with duplicate elements: " ++ el))
        | none =>
          .ok { label := label, pseudoType := .PseudoPotentialData, stored := true,
                pseudos := records.map (fun r => (r.element, r)) }

/-- A stored base-type record for argon, used as a concrete fixture. -/
def arRec : PseudoRecord := ⟨.PseudoPotentialData, "Ar", true⟩

/-- A stored base-type record for helium, used as a concrete fixture. -/
def heRec : PseudoRecord := ⟨.PseudoPotentialData, "He", true⟩

/-- A stored record of the strict subtype `UpfData`, used as a concrete fixture. -/
def upfHeRec : PseudoRecord := ⟨.UpfData, "He", true⟩

/-- An unstored base-type record for argon, used as a concrete fixture. -/
def arRecUnstored : PseudoRecord := ⟨.PseudoPotentialData, "Ar", false⟩

/-- A stored family already containing an argon record, used as a concrete fixture. -/
def fam0 : PseudoPotentialFamily := ⟨"label", .PseudoPotentialData, true, [("Ar", arRec)]⟩

/-- The family `fam0` after a helium record has been added, used as a concrete fixture. -/
def famAfterHe : PseudoPotentialFamily :=
  ⟨"label", .PseudoPotentialData, true, [("Ar", arRec), ("He", heRec)]⟩

/-- Unfolding lemma for `pow10` at a non-negative exponent. -/
theorem pow10_ofNat (n : Nat) : pow10 (Int.ofNat n) = (10 : ℚ) ^ n := rfl

/-- Unfolding lemma for `pow10` at a negative exponent. -/
theorem pow10_negSucc (n : Nat) : pow10 (Int.negSucc n) = 1 / (10 : ℚ) ^ (n + 1) := rfl

/-- Helper: the scanner evaluated on the nine test strings, as exact
scaled-decimal pairs. -/
theorem searchValence_eval :
    zValenceTestStrings.map searchValence =
      [some (1, Int.ofNat 0), some (10, Int.negSucc 0), some (1000, Int.negSucc 2),
        some (100, Int.negSucc 0), some (1500, Int.ofNat 0), some (10, Int.negSucc 0),
        some (1, Int.ofNat 0), some (1, Int.ofNat 0), some (10, Int.negSucc 0)] := by
  decide

/-- C1: For every input string among the nine literal valence encodings
(`z_valence="1"`, `z_valence="1.0"`, `z_valence="1.000"`,
`z_valence="1.00E+01"`, `z_valence="1500."`, `z_valence='1.0'`,
`z_valence="    1"`, `z_valence="1    "`, and the legacy form
`1.0     Z valence`), `parse_z_valence` returns a truthy (non-null,
non-zero) numeric value rather than failing. -/
theorem parse_z_valence_truthy_on_test_strings :
    zValenceTestStrings.map parse_z_valence =
      [some 1, some 1, some 1, some 10, some 1500, some 1, some 1, some 1, some 1] ∧
    ∀ s ∈ zValenceTestStrings, ∃ q : ℚ, parse_z_valence s = some q ∧ q ≠ 0 := by
  have hmap : zValenceTestStrings.map parse_z_valence =
      [some 1, some 1, some 1, some 10, some 1500, some 1, some 1, some 1, some 1] := by
    have h1 : zValenceTestStrings.map parse_z_valence =
        (zValenceTestStrings.map searchValence).map (Option.map sciVal) := by
      rw [List.map_map]
      rfl
    rw [h1, searchValence_eval]
    simp only [List.map_cons, List.map_nil, Option.map_some', sciVal, pow10_ofNat, pow10_negSucc]
    norm_num
  refine ⟨hmap, ?_⟩
  intro s hs
  have hmem : parse_z_valence s ∈
      ([some 1, some 1, some 1, some 10, some 1500, some 1, some 1, some 1, some 1] :
        List (Option ℚ)) := by
    rw [← hmap]
    exact List.mem_map_of_mem _ hs
  simp only [List.mem_cons, List.mem_singleton, List.not_mem_nil, or_false] at hmem
  rcases hmem with h | h | h | h | h | h | h | h | h
  all_goals first
    | exact ⟨1, h, by norm_num⟩
    | exact ⟨10, h, by norm_num⟩
    | exact ⟨1500, h, by norm_num⟩

/-- Witness for C1: the legacy free-text string `1.0     Z valence` parses
to a truthy non-zero value. -/
theorem parse_z_valence_truthy_on_test_strings_witness :
    ∃ q : ℚ, parse_z_valence "1.0     Z valence" = some q ∧ q ≠ 0 :=
  parse_z_valence_truthy_on_test_strings.2 "1.0     Z valence" (by decide)

/-- Helper: a batch passing the conflict scan has all its elements fresh
with respect to the membership it was scanned against, and pairwise
distinct among themselves. -/
theorem firstConflict_none_spec (ns : List PseudoRecord) :
    ∀ seen : List String, firstConflict seen ns = none →
      (∀ n ∈ ns, n.element ∉ seen) ∧ (ns.map PseudoRecord.element).Nodup := by
  induction ns with
  | nil =>
    intro seen _
    exact ⟨fun n hn => absurd hn (List.not_mem_nil n), List.nodup_nil⟩
  | cons n ns ih =>
    intro seen h
    unfold firstConflict at h
    by_cases hc : n.element ∈ seen
    · simp [hc] at h
    · rw [if_neg hc] at h
      obtain ⟨h1, h2⟩ := ih _ h
      have hfresh : ∀ m ∈ ns, m.element ≠ n.element ∧ m.element ∉ seen := by
        intro m hm
        have := h1 m hm
        simp only [List.mem_cons, not_or] at this
        exact this
      refine ⟨?_, ?_⟩
      · intro m hm
        rcases List.mem_cons.mp hm with rfl | hm'
        · exact hc
        · exact (hfresh m hm').2
      · rw [List.map_cons, List.nodup_cons]
        refine ⟨?_, h2⟩
        intro hmem
        obtain ⟨m, hm, hme⟩ := List.mem_map.mp hmem
        exact (hfresh m hm).1 hme

/-- Helper: in an association list with pairwise-distinct keys, `find?` on a
present key returns exactly the pair stored under it. -/
theorem find?_key_nodup {β : Type} (l : List (String × β)) (el : String) (r : β)
    (hmem : (el, r) ∈ l) (hnd : (l.map Prod.fst).Nodup) :
    l.find? (fun p => p.1 == el) = some (el, r) := by
  induction l with
  | nil => cases hmem
  | cons a as ih =>
    rw [List.map_cons, List.nodup_cons] at hnd
    rcases List.mem_cons.mp hmem with rfl | hmem'
    · exact List.find?_cons_of_pos _ (by simp)
    · have hne : a.1 ≠ el := by
        intro heq
        exact hnd.1 (heq ▸ List.mem_map.mpr ⟨(el, r), hmem', rfl⟩)
      rw [List.find?_cons_of_neg _ (by simp [hne])]
      exact ih hmem' hnd.2

/-- Helper: `find?` skips a first segment in which no entry satisfies the
predicate. -/
theorem find?_append_none {α : Type} (p : α → Bool) (l₁ l₂ : List α)
    (h : l₁.find? p = none) : (l₁ ++ l₂).find? p = l₂.find? p := by
  induction l₁ with
  | nil => rfl
  | cons a as ih =>
    rw [List.find?_cons] at h
    rw [List.cons_append, List.find?_cons]
    cases hp : p a with
    | true => rw [hp] at h; cases h
    | false =>
      rw [hp] at h
      exact ih h

/-- Helper: the duplicate scan returns `none` exactly on duplicate-free lists. -/
theorem firstDup_eq_none_iff (l : List String) : firstDup l = none ↔ l.Nodup := by
  induction l with
  | nil => simp [firstDup]
  | cons x xs ih =>
    unfold firstDup
    by_cases hx : x ∈ xs
    · simp [hx]
    · simp [hx, ih]

/-- Helper: parsing a directory preserves the number of entries. -/
theorem parsePseudosFromDirectory_length (entries : List DirEntry) :
    ∀ recs, parsePseudosFromDirectory entries = .ok recs → recs.length = entries.length := by
  induction entries with
  | nil =>
    intro recs h
    cases h
    rfl
  | cons e es ih =>
    intro recs h
    unfold parsePseudosFromDirectory at h
    cases hp : parseElementFromFilename e.name with
    | none => rw [hp] at h; cases h
    | some el =>
      rw [hp] at h
      cases hr : parsePseudosFromDirectory es with
      | error m => rw [hr] at h; cases h
      | ok rs =>
        rw [hr] at h
        cases h
        simp [ih rs hr]

/-- C10: Constructing a collection whose declared record type is not a
subclass of the base pseudopotential record type fails immediately with a
RuntimeError stating that the type is not a subclass of
`PseudoPotentialData`, before any use of the collection. -/
theorem construct_rejects_non_subclass (pt : PseudoType) (label : String)
    (h : pt.isSubclassOfPseudoPotentialData = false) :
    PseudoPotentialFamily.construct pt label =
      .error (.runtimeError ("`" ++ pt.typeName ++
        "` is not a subclass of `PseudoPotentialData`.")) := by
  unfold PseudoPotentialFamily.construct
  rw [h]
  rfl

/-- Witness for C10: the misconfigured subclass of `test_pseudo_type_validation`,
declaring `int` as its record type, is rejected at construction. -/
theorem construct_rejects_non_subclass_witness :
    PseudoPotentialFamily.construct .int "custom" =
      .error (.runtimeError "`int` is not a subclass of `PseudoPotentialData`.") := by
  have h := construct_rejects_non_subclass .int "custom" (by rfl)
  simpa using h

/-- C4: For every record not yet persisted, `set_file` re-derives the
element from the new content's name; once the record is stored, any further
`set_file` call fails with ModificationNotAllowed and the element attribute
remains unchanged (no record with a different element is ever produced). -/
theorem set_file_lifecycle (p : PseudoRecord) (fn el : String) :
    (p.stored = false → parseElementFromFilename fn = some el →
      p.set_file fn = .ok { p with element := el }) ∧
    (p.stored = true →
      p.set_file fn = .error (.modificationNotAllowed
        "the node is stored and its file content can no longer be changed") ∧
      ∀ q, p.set_file fn = .ok q → q.element = p.element) := by
  constructor
  · intro hst hp
    unfold PseudoRecord.set_file
    rw [hst]
    simp [hp]
  · intro hst
    have herr : p.set_file fn = .error (.modificationNotAllowed
        "the node is stored and its file content can no longer be changed") := by
      unfold PseudoRecord.set_file
      rw [hst]
      rfl
    refine ⟨herr, ?_⟩
    intro q hq
    rw [herr] at hq
    cases hq

/-- Witness for C4: the flow of `test_set_file`: an unstored argon record
re-derives helium from `He.upf`; after storing, the replacement fails. -/
theorem set_file_lifecycle_witness :
    arRecUnstored.set_file "He.upf" = .ok ⟨.PseudoPotentialData, "He", false⟩ ∧
    (arRecUnstored.set_file "He.upf").map PseudoRecord.store = .ok heRec ∧
    heRec.set_file "He.upf" = .error (.modificationNotAllowed
      "the node is stored and its file content can no longer be changed") := by
  have h1 := (set_file_lifecycle arRecUnstored "He.upf" "He").1 (by rfl) (by decide)
  have h2 := ((set_file_lifecycle heRec "He.upf" "He").2 (by rfl)).1
  refine ⟨h1, ?_, h2⟩
  rw [h1]
  rfl

/-- C9: For every collection, `get_pseudo` returns exactly the member
record stored under the given element when the element is present in the
membership, and fails with a ValueError naming the collection and the
element when it is absent. -/
theorem get_pseudo_spec (fam : PseudoPotentialFamily) (el : String) (r : PseudoRecord) :
    (famInvariant fam → (el, r) ∈ fam.pseudos → fam.get_pseudo el = .ok r) ∧
    (el ∉ fam.elements →
      fam.get_pseudo el = .error (.valueError ("family `" ++ fam.label ++
        "` does not contain pseudo for element `" ++ el ++ "`"))) := by
  constructor
  · intro hinv hmem
    unfold PseudoPotentialFamily.get_pseudo PseudoPotentialFamily.pseudosMap
    rw [find?_key_nodup fam.pseudos el r hmem hinv]
    rfl
  · intro habs
    unfold PseudoPotentialFamily.get_pseudo PseudoPotentialFamily.pseudosMap
    have hnone : fam.pseudos.find? (fun p => p.1 == el) = none := by
      rw [List.find?_eq_none]
      intro x hx
      have : x.1 ∈ fam.elements := List.mem_map.mpr ⟨x, hx, rfl⟩
      simp only [beq_iff_eq]
      intro heq
      exact habs (heq ▸ this)
    rw [hnone]
    rfl

/-- Witness for C9: in `fam0` the argon record is returned exactly, while
helium is reported absent with the family's label in the message. -/
theorem get_pseudo_spec_witness :
    fam0.get_pseudo "Ar" = .ok arRec ∧
    fam0.get_pseudo "He" = .error (.valueError
      "family `label` does not contain pseudo for element `He`") := by
  have h1 := (get_pseudo_spec fam0 "Ar" arRec).1 (by decide) (by decide)
  have h2 := (get_pseudo_spec fam0 "He" arRec).2 (by decide)
  exact ⟨h1, by simpa using h2⟩

/-- C8: For every stored collection and every input (single record, tuple,
or list) containing at least one unstored record, `add_nodes` fails with a
ValueError stating that at least one of the provided nodes is unstored, and
no record from the input is added (no updated collection is produced). -/
theorem add_nodes_rejects_unstored (fam : PseudoPotentialFamily) (input : NodesInput)
    (hstored : fam.stored = true)
    (hunstored : input.toList.any (fun n => !n.stored) = true) :
    fam.add_nodes_input input =
      .error (.valueError "At least one of the provided nodes is unstored, stopping...") ∧
    ∀ fam', fam.add_nodes_input input ≠ .ok fam' := by
  have herr : fam.add_nodes_input input =
      .error (.valueError "At least one of the provided nodes is unstored, stopping...") := by
    unfold PseudoPotentialFamily.add_nodes_input PseudoPotentialFamily.add_nodes
    rw [hstored, hunstored]
    rfl
  refine ⟨herr, ?_⟩
  intro fam' h
  rw [herr] at h
  cases h

/-- Witness for C8: adding an unstored argon record to the stored `fam0`
fails with the unstored-node ValueError. -/
theorem add_nodes_rejects_unstored_witness :
    fam0.add_nodes_input (.single arRecUnstored) =
      .error (.valueError "At least one of the provided nodes is unstored, stopping...") :=
  (add_nodes_rejects_unstored fam0 (.single arRecUnstored) (by rfl) (by decide)).1

/-- C5: For every stored collection and every input (single record, tuple,
or list) of stored records containing at least one record whose concrete
type is not exactly the collection's declared record type — including
records of a strict subtype of that type — `add_nodes` fails with a
TypeError identifying the expected type, and no updated collection is
produced (the membership is unchanged). -/
theorem add_nodes_rejects_wrong_type (fam : PseudoPotentialFamily) (input : NodesInput)
    (hstored : fam.stored = true)
    (hall : input.toList.any (fun n => !n.stored) = false)
    (hbad : input.toList.any (fun n => !(n.rtype == fam.pseudoType)) = true) :
    fam.add_nodes_input input =
      .error (.typeError ("only nodes of type `" ++ fam.pseudoType.typeName ++
        "` can be added")) ∧
    ∀ fam', fam.add_nodes_input input ≠ .ok fam' := by
  have herr : fam.add_nodes_input input =
      .error (.typeError ("only nodes of type `" ++ fam.pseudoType.typeName ++
        "` can be added")) := by
    unfold PseudoPotentialFamily.add_nodes_input PseudoPotentialFamily.add_nodes
    rw [hstored, hall, hbad]
    rfl
  refine ⟨herr, ?_⟩
  intro fam' h
  rw [herr] at h
  cases h

/-- Witness for C5: a stored record of the strict subtype `UpfData` is
refused by the base-typed family `fam0` with the expected-type TypeError. -/
theorem add_nodes_rejects_wrong_type_witness :
    fam0.add_nodes_input (.single upfHeRec) =
      .error (.typeError "only nodes of type `PseudoPotentialData` can be added") := by
  have h := (add_nodes_rejects_wrong_type fam0 (.single upfHeRec)
    (by rfl) (by decide) (by decide)).1
  simpa using h

/-- C2: Every operation of a collection preserves the invariant that no two
member records share the same element value (construction, folder creation
and `add_nodes` all yield families with pairwise-distinct elements); in
particular, for every stored collection already containing a record for
element E, calling `add_nodes` with a (stored, correctly typed) record whose
element is E fails with a ValueError identifying the conflicting element,
and no updated collection is produced. -/
theorem add_nodes_preserves_element_uniqueness
    (fam fam' fam2 fam3 : PseudoPotentialFamily) (ns : List PseudoRecord)
    (r : PseudoRecord) (labels : List String) (dirpath lbl lbl2 : String)
    (entries : List DirEntry) (pt : PseudoType) (hinv : famInvariant fam) :
    (fam.add_nodes ns = .ok fam' → famInvariant fam') ∧
    (PseudoPotentialFamily.construct pt lbl2 = .ok fam2 → famInvariant fam2) ∧
    (create_from_folder labels dirpath entries lbl = .ok fam3 → famInvariant fam3) ∧
    (fam.stored = true → r.stored = true → r.rtype = fam.pseudoType →
      r.element ∈ fam.elements →
      fam.add_nodes [r] = .error (.valueError ("element `" ++ r.element ++
        "` already present in this family"))) := by
  refine ⟨?_, ?_, ?_, ?_⟩
  · intro h
    unfold PseudoPotentialFamily.add_nodes at h
    split at h
    · exact Except.noConfusion h
    · split at h
      · exact Except.noConfusion h
      · split at h
        · exact Except.noConfusion h
        · split at h
          · exact Except.noConfusion h
          next hconf =>
            cases h
            obtain ⟨hfresh, hnd⟩ := firstConflict_none_spec ns fam.elements hconf
            unfold famInvariant at hinv ⊢
            rw [List.map_append, List.map_map]
            have hfun : (Prod.fst ∘ fun n : PseudoRecord => (n.element, n)) =
                PseudoRecord.element := rfl
            rw [hfun]
            refine List.Nodup.append hinv hnd ?_
            intro a ha hb
            obtain ⟨m, hm, hme⟩ := List.mem_map.mp hb
            exact hfresh m hm (hme ▸ ha)
  · intro h
    unfold PseudoPotentialFamily.construct at h
    split at h
    · cases h
      exact List.nodup_nil
    · exact Except.noConfusion h
  · intro h
    unfold create_from_folder at h
    split at h
    · exact Except.noConfusion h
    · split at h
      · exact Except.noConfusion h
      · split at h
        · exact Except.noConfusion h
        next records hrec =>
          split at h
          · exact Except.noConfusion h
          · split at h
            · exact Except.noConfusion h
            next hdup =>
              cases h
              unfold famInvariant
              rw [List.map_map]
              have hfun : (Prod.fst ∘ fun r : PseudoRecord => (r.element, r)) =
                  PseudoRecord.element := rfl
              rw [hfun]
              exact (firstDup_eq_none_iff _).mp hdup
  · intro h1 h2 h3 h4
    unfold PseudoPotentialFamily.add_nodes firstConflict
    simp [h1, h2, h3, h4]

/-- Witness for C2: adding helium to `fam0` yields a family still satisfying
the invariant, and re-adding argon fails naming the conflicting element. -/
theorem add_nodes_preserves_element_uniqueness_witness :
    famInvariant famAfterHe ∧
    fam0.add_nodes [arRec] =
      .error (.valueError "element `Ar` already present in this family") := by
  have h := add_nodes_preserves_element_uniqueness fam0 famAfterHe fam0 fam0 [heRec]
    arRec [] "d" "l" "l2" [] .PseudoPotentialData (by decide)
  refine ⟨h.1 (by rfl), ?_⟩
  have h4 := h.2.2.2 rfl rfl rfl (by decide)
  simpa using h4

/-- C7: For every stored collection and every valid input batch (single
record, tuple, or list) of stored, correctly typed records with fresh,
pairwise-distinct elements, `add_nodes` succeeds, after which the mapping at
each input record's element equals that record and the membership count has
increased by exactly the size of the input. -/
theorem add_nodes_success (fam : PseudoPotentialFamily) (input : NodesInput)
    (hstored : fam.stored = true)
    (hall : input.toList.any (fun n => !n.stored) = false)
    (htype : input.toList.any (fun n => !(n.rtype == fam.pseudoType)) = false)
    (hconf : firstConflict fam.elements input.toList = none) :
    ∃ fam', fam.add_nodes_input input = .ok fam' ∧
      fam'.pseudos = fam.pseudos ++ input.toList.map (fun n => (n.element, n)) ∧
      fam'.pseudos.length = fam.pseudos.length + input.toList.length ∧
      fam'.elements.length = fam.elements.length + input.toList.length ∧
      ∀ n ∈ input.toList, fam'.pseudosMap n.element = some n := by
  obtain ⟨hfresh, hnd⟩ := firstConflict_none_spec input.toList fam.elements hconf
  refine ⟨{ fam with
    pseudos := fam.pseudos ++ input.toList.map (fun n => (n.element, n)) }, ?_, rfl, ?_, ?_, ?_⟩
  · unfold PseudoPotentialFamily.add_nodes_input PseudoPotentialFamily.add_nodes
    rw [hstored, hall, htype, hconf]
    simp
  · simp
  · unfold PseudoPotentialFamily.elements
    simp
  · intro n hn
    unfold PseudoPotentialFamily.pseudosMap
    have hnone : fam.pseudos.find? (fun p => p.1 == n.element) = none := by
      rw [List.find?_eq_none]
      intro x hx
      simp only [beq_iff_eq]
      intro heq
      exact hfresh n hn (heq ▸ List.mem_map.mpr ⟨x, hx, rfl⟩)
    have hkeys : ((input.toList.map (fun n => (n.element, n))).map Prod.fst).Nodup := by
      rw [List.map_map]
      exact hnd
    have hmem : (n.element, n) ∈ input.toList.map (fun n => (n.element, n)) :=
      List.mem_map.mpr ⟨n, hn, rfl⟩
    rw [show ({ fam with
        pseudos := fam.pseudos ++ input.toList.map (fun n => (n.element, n)) } :
        PseudoPotentialFamily).pseudos =
        fam.pseudos ++ input.toList.map (fun n => (n.element, n)) from rfl]
    rw [find?_append_none _ _ _ hnone]
    rw [find?_key_nodup _ n.element n hmem hkeys]
    rfl

/-- Witness for C7: adding the helium record to `fam0` as a one-element
list succeeds, the count grows from one to two, and lookup at `He` returns
the added record. -/
theorem add_nodes_success_witness :
    ∃ fam', fam0.add_nodes_input (.list [heRec]) = .ok fam' ∧
      fam'.pseudos = fam0.pseudos ++ [heRec].map (fun n => (n.element, n)) ∧
      fam'.pseudos.length = fam0.pseudos.length + [heRec].length ∧
      fam'.elements.length = fam0.elements.length + [heRec].length ∧
      ∀ n ∈ [heRec], fam'.pseudosMap n.element = some n :=
  add_nodes_success fam0 (.list [heRec]) rfl (by decide) (by decide) (by decide)

/-- C3: For every directory whose entries are files each parsing to a
distinct valid element (and at least one file, under a fresh label),
`create_from_folder` returns a persisted (stored) collection carrying the
given label whose membership has exactly one record per file, keyed by
element. -/
theorem create_from_folder_success (labels : List String) (dirpath label : String)
    (entries : List DirEntry) (recs : List PseudoRecord)
    (hlabel : label ∉ labels)
    (hfiles : entries.any (fun e => !e.isFile) = false)
    (hparse : parsePseudosFromDirectory entries = .ok recs)
    (hne : recs ≠ [])
    (hnd : (recs.map PseudoRecord.element).Nodup) :
    ∃ fam, create_from_folder labels dirpath entries label = .ok fam ∧
      fam.stored = true ∧ fam.label = label ∧
      fam.pseudos.length = entries.length ∧
      fam.elements = recs.map PseudoRecord.element := by
  have hempty : recs.isEmpty = false := by
    cases recs with
    | nil => exact absurd rfl hne
    | cons a as => rfl
  have hdup : firstDup (recs.map PseudoRecord.element) = none :=
    (firstDup_eq_none_iff _).mpr hnd
  refine ⟨⟨label, .PseudoPotentialData, true, recs.map (fun r => (r.element, r))⟩,
    ?_, rfl, rfl, ?_, ?_⟩
  · unfold create_from_folder
    rw [if_neg hlabel, hfiles, hparse]
    simp only [Bool.false_eq_true, if_false, hempty, hdup]
  · simp [parsePseudosFromDirectory_length entries recs hparse]
  · unfold PseudoPotentialFamily.elements
    rw [List.map_map]
    rfl

/-- Witness for C3: a folder with the two files `Ar.upf` and `He.upf` under
a fresh label yields a stored two-member family keyed by `Ar` and `He`. -/
theorem create_from_folder_success_witness :
    ∃ fam, create_from_folder [] "pseudos" [⟨"Ar.upf", true⟩, ⟨"He.upf", true⟩]
        "label" = .ok fam ∧
      fam.stored = true ∧ fam.label = "label" ∧
      fam.pseudos.length = 2 ∧
      fam.elements = ["Ar", "He"] := by
  have h := create_from_folder_success [] "pseudos" "label"
    [⟨"Ar.upf", true⟩, ⟨"He.upf", true⟩] [arRec, heRec]
    (by decide) (by decide) (by rfl) (by decide) (by decide)
  simpa [arRec, heRec] using h

/-- C6: For every directory in which two files parse to the same element
(under a fresh label, all entries being files), `create_from_folder` fails
with a ValueError identifying the duplicate element and the directory, and
no collection is created. -/
theorem create_from_folder_duplicate_element (labels : List String)
    (dirpath label : String) (entries : List DirEntry) (recs : List PseudoRecord)
    (d : String)
    (hlabel : label ∉ labels)
    (hfiles : entries.any (fun e => !e.isFile) = false)
    (hparse : parsePseudosFromDirectory entries = .ok recs)
    (hdup : firstDup (recs.map PseudoRecord.element) = some d) :
    create_from_folder labels dirpath entries label =
      .error (.valueError ("directory `" ++ dirpath ++
        "` contains pseudo potentials with duplicate elements: " ++ d)) ∧
    ∀ fam, create_from_folder labels dirpath entries label ≠ .ok fam := by
  have hempty : recs.isEmpty = false := by
    cases recs with
    | nil => simp [firstDup] at hdup
    | cons a as => rfl
  have herr : create_from_folder labels dirpath entries label =
      .error (.valueError ("directory `" ++ dirpath ++
        "` contains pseudo potentials with duplicate elements: " ++ d)) := by
    unfold create_from_folder
    rw [if_neg hlabel, hfiles, hparse]
    simp only [Bool.false_eq_true, if_false, hempty, hdup]
  refine ⟨herr, ?_⟩
  intro fam h
  rw [herr] at h
  cases h

/-- Witness for C6: a folder holding `Ar.upf` and `Ar.UPF` (same element,
extensions differing only in case) is rejected with the duplicate-element
ValueError naming `Ar` and the directory. -/
theorem create_from_folder_duplicate_element_witness :
    create_from_folder [] "tmpdir" [⟨"Ar.upf", true⟩, ⟨"Ar.UPF", true⟩] "label" =
      .error (.valueError
        "directory `tmpdir` contains pseudo potentials with duplicate elements: Ar") := by
  have h := (create_from_folder_duplicate_element [] "tmpdir" "label"
    [⟨"Ar.upf", true⟩, ⟨"Ar.UPF", true⟩] [arRec, arRec] "Ar"
    (by decide) (by decide) (by rfl) (by decide)).1
  simpa using h
